import Mathlib

/-!
Shallow embedding of the history-backfill, retention (GC), ingestion-hook and
startup logic of the `w-message-db` plugin (`src/index.tsx`), together with
proofs of the claims about them.

Machine integers of the source are modelled as `Nat` (timestamps are stored in
an `unsigned` column); the JavaScript comparison `timestamp < duration.start`
coerces a `null` bound to `0`, which on unsigned timestamps is `false`, so a
`none` bound compares as `false`.  Asynchronous paging is modelled by an
explicit page list consumed lazily; the external storage engine's upsert is
modelled by its documented insert-or-ignore contract.
-/

namespace MessageDb

/-- The `SavedGuild` record of the `w-message-guild` table (`src/types.ts`). -/
structure SavedGuild where
  platform : String
  guildId : String
  name : String
  managerBotId : String
  isTracked : Bool
deriving DecidableEq, Repr

/-- The `SavedMessage` record of the `w-message` table (`src/types.ts`). -/
structure SavedMessage where
  id : String
  platform : String
  guildId : String
  userId : String
  username : String
  content : String
  timestamp : Nat
deriving DecidableEq, Repr

/-- Function `getGid` from `shared/utils.ts`: the composite `platform:guildId` key. -/
def getGid (platform guildId : String) : String :=
  platform ++ ":" ++ guildId

/-- Type `Duration` from `shared/utils.ts`; `none` is an unbounded side
(`null`/`undefined` in the source). The `end` field is renamed `stop`
(`end` is a Lean keyword). -/
structure Duration where
  start : Option Nat
  stop : Option Nat
deriving DecidableEq, Repr

/-- JS truthiness of `duration.end`: both `null` and `0` are falsy
(`duration.end ? ... : undefined` in `fetchHistory`). -/
def durEnd : Option Nat → Option Nat
  | none => none
  | some e => if e = 0 then none else some e

/-- JS comparison `timestamp < duration.start` on an unsigned timestamp:
a `null` bound coerces to `0`, hence `false`. -/
def tsLtStart (ts : Nat) (start : Option Nat) : Bool :=
  match start with
  | none => false
  | some s => ts < s

/-- The storage engine's documented upsert contract for `w-message`
(insert-or-ignore keyed by message `id`; reports whether a row was
actually inserted). -/
def upsertMessage (store : List SavedMessage) (m : SavedMessage) :
    List SavedMessage × Bool :=
  if store.any (fun r => r.id == m.id) then (store, false)
  else (store ++ [m], true)

/-- The storage engine's upsert for `w-message-guild`, keyed by
`(platform, guildId)` (insert-or-replace). -/
def upsertGuild (tbl : List SavedGuild) (g : SavedGuild) : List SavedGuild :=
  if tbl.any (fun r => r.platform == g.platform && r.guildId == g.guildId) then
    tbl.map (fun r =>
      if r.platform == g.platform && r.guildId == g.guildId then g else r)
  else tbl ++ [g]

/-- Function `divide` from `shared/utils.ts`: partition a list by a predicate,
preserving order. -/
def divide : List α → (α → Bool) → List α × List α
  | [], _ => ([], [])
  | x :: xs, p =>
    let (t, f) := divide xs p
    if p x then (x :: t, f) else (t, x :: f)

/-- A raw platform message as returned by `bot.getMessageList`
(the fields `fetchHistory` reads: `id`, `content`, `timestamp`,
`user.id`, `user.nick`, `user.name`). -/
structure RawMessage where
  id : String
  content : String
  timestamp : Nat
  userId : String
  userName : String
  userNick : String
deriving DecidableEq, Repr

/-- Building the storable record in `fetchHistory`
(`username: msg.user.nick || msg.user.name` — JS falsy-or on strings). -/
def toSaved (platform guildId : String) (m : RawMessage) : SavedMessage :=
  { id := m.id
    platform := platform
    guildId := guildId
    userId := m.userId
    username := if m.userNick == "" then m.userName else m.userNick
    content := m.content
    timestamp := m.timestamp }

/-- One `getMessageList` response: `page data hasNext` carries `list.data`
(`none` models a null `data`) and whether `list.next` is truthy; `fail`
models the call throwing (network failure etc.). -/
inductive Page where
  | page (data : Option (List RawMessage)) (hasNext : Bool)
  | fail
deriving DecidableEq, Repr

/-- Parameters of one guild's fetching loop (after default resolution). -/
structure FetchParams where
  start : Option Nat
  stopOnOld : Bool
  maxCount : Nat
deriving DecidableEq, Repr

/-- Mutable state of the `for await` loop in `fetchHistory`. -/
structure LoopState where
  store : List SavedMessage
  count : Nat
  inserted : Nat
deriving DecidableEq, Repr

/-- Exit reasons of a successful per-guild fetch. -/
inductive ExitReason where
  | reachedMax
  | exhausted
  | done
deriving DecidableEq, Repr

/-- Outcome of one loop iteration: continue with a new state, or stop
with a final store, inserted count and exit reason. -/
inductive StepOut where
  | next (s : LoopState)
  | stop (store : List SavedMessage) (inserted : Nat) (exit : ExitReason)
deriving DecidableEq, Repr

/-- Body of the `for await (const msg of iter)` loop in `fetchHistory`,
in source order: the `count ++ === maxCount` guard, the empty-content
skip, the upsert, then the `stopOnOld` / `duration.start` stop test. -/
def stepMsg (p : FetchParams) (platform guildId : String)
    (s : LoopState) (m : RawMessage) : StepOut :=
  if s.count = p.maxCount then
    .stop s.store s.inserted .reachedMax
  else if m.content == "" then
    .next { s with count := s.count + 1 }
  else
    let (store2, ins) := upsertMessage s.store (toSaved platform guildId m)
    let inserted2 := s.inserted + (if ins then 1 else 0)
    if (!ins && p.stopOnOld) || tsLtStart m.timestamp p.start then
      .stop store2 inserted2 .done
    else
      .next ⟨store2, s.count + 1, inserted2⟩

/-- Run the loop body over the messages of one page (already in
newest-to-oldest order). -/
def runMsgs (p : FetchParams) (platform guildId : String) :
    List RawMessage → LoopState →
    LoopState ⊕ (List SavedMessage × Nat × ExitReason)
  | [], s => .inl s
  | m :: ms, s =>
    match stepMsg p platform guildId s m with
    | .next s' => runMsgs p platform guildId ms s'
    | .stop st i e => .inr (st, i, e)

/-- Per-guild outcome of the paging loop, before tagging with the guild. -/
inductive GuildOutcome where
  | ok (inserted : Nat) (exit : ExitReason)
  | internalError
deriving DecidableEq, Repr

/-- The paging loop of `getMessageIter` consumed by `fetchHistory`: each list
entry is one `getMessageList` response, fetched lazily (a page is requested
only when the loop needs a further message).  Returns the final store, the
outcome, and the number of pages actually requested.  Within a page the data
is reversed (`list.data.reverse()`), an absent `data` ends the stream, an
absent `next` ends the stream after the page, and a thrown fetch is caught by
the per-guild `try`/`catch` as an internal error. -/
def runPages (p : FetchParams) (platform guildId : String) :
    List Page → LoopState → List SavedMessage × GuildOutcome × Nat
  | [], s => (s.store, .ok s.inserted .exhausted, 0)
  | .fail :: _, s => (s.store, .internalError, 1)
  | .page none _ :: _, s => (s.store, .ok s.inserted .exhausted, 1)
  | .page (some data) hasNext :: rest, s =>
    match runMsgs p platform guildId data.reverse s with
    | .inr (st, i, e) => (st, .ok i e, 1)
    | .inl s' =>
      if hasNext then
        let (st, out, n) := runPages p platform guildId rest s'
        (st, out, n + 1)
      else (s'.store, .ok s'.inserted .exhausted, 1)

/-- A live bot connection as seen by `fetchHistory`: identity, liveness, the
NapCat resume-cursor capability check
(`bot.platform === 'onebot' && bot.internal.isNapCat`), and its paged history
as the chain of `getMessageList` responses for a given guild and start
cursor. -/
structure Bot where
  platform : String
  selfId : String
  isActive : Bool
  isNapCat : Bool
  pages : String → Option String → List Page

/-- The lookup `this.ctx.bots.find(it => it.platform === platform && it.selfId === managerBotId)`. -/
def findBot (bots : List Bot) (platform selfId : String) : Option Bot :=
  bots.find? (fun b => b.platform == platform && b.selfId == selfId)

/-- The query of `getStartTokenBefore`:
`select w-message where timestamp < time orderBy timestamp desc limit 1`
(the row with maximal timestamp among those strictly before `time`; ties
broken by an unspecified storage order, modelled as first-in-table). -/
def latestBefore (store : List SavedMessage) (time : Nat) : Option SavedMessage :=
  match store with
  | [] => none
  | m :: rest =>
    let r := latestBefore rest time
    if m.timestamp < time then
      match r with
      | none => some m
      | some b => if b.timestamp < m.timestamp then some m else some b
    else r

/-- Function `getStartTokenBefore` from `src/index.tsx`: only for a NapCat onebot
connection, the id of the most recent stored message before `time`
(the query has no platform or guild filter). -/
def getStartTokenBefore (bot : Bot) (store : List SavedMessage) (time : Nat) :
    Option String :=
  if bot.platform == "onebot" && bot.isNapCat then
    (latestBefore store time).map (fun m => m.id)
  else none

/-- Per-guild tagged result (`FetchHistoryGuildResult` in `src/types.ts`). -/
inductive GuildResult where
  | errorBotNotAvailable (guild : SavedGuild)
  | errorInternal (guild : SavedGuild)
  | ok (guild : SavedGuild) (inserted : Nat) (exit : ExitReason)
deriving DecidableEq, Repr

/-- The test `it.type === 'error'` on a `FetchHistoryGuildResult`. -/
def GuildResult.isError : GuildResult → Bool
  | .errorBotNotAvailable _ => true
  | .errorInternal _ => true
  | .ok _ _ _ => false

/-- The `inserted` field of an `ok` result (`0` on errors, which are never
read for it). -/
def GuildResult.insertedCount : GuildResult → Nat
  | .ok _ n _ => n
  | _ => 0

/-- One guild's backfill in `fetchHistory`: manager-bot lookup and liveness
check, start-cursor computation when `duration.end` is truthy, then the
paging loop.  Returns the tagged result, the message store after this
guild's upserts, and the number of pages requested. -/
def fetchGuild (bots : List Bot) (p : FetchParams) (durStop : Option Nat)
    (store : List SavedMessage) (guild : SavedGuild) :
    GuildResult × List SavedMessage × Nat :=
  match findBot bots guild.platform guild.managerBotId with
  | none => (.errorBotNotAvailable guild, store, 0)
  | some bot =>
    if !bot.isActive then (.errorBotNotAvailable guild, store, 0)
    else
      let startToken :=
        match durEnd durStop with
        | some e => getStartTokenBefore bot store e
        | none => none
      let pgs := bot.pages guild.guildId startToken
      let (st, out, n) := runPages p guild.platform guild.guildId pgs ⟨store, 0, 0⟩
      match out with
      | .ok i e => (.ok guild i e, st, n)
      | .internalError => (.errorInternal guild, st, n)

/-- The configuration fields the core reads. -/
structure Config where
  readonly : Bool
  requireTracking : Bool
  maxCount : Nat
  gcEnabled : Bool
  gcOlderThan : Nat
  gcUntrackedOnly : Bool
deriving DecidableEq, Repr

/-- Type `FetchHistoryOptions`: `duration` plus optional `stopOnOld` (default
`true`) and `maxCount` (default `config.historyFetching.maxCount`). -/
structure FetchHistoryOptions where
  duration : Duration
  stopOnOld : Option Bool
  maxCount : Option Nat
deriving DecidableEq, Repr

/-- Type `FetchHistoryResult`: the batch report. -/
structure FetchHistoryResult where
  results : List GuildResult
  errorCount : Nat
  okCount : Nat
  messageCount : Nat
deriving DecidableEq, Repr

/-- The per-guild phase of `fetchHistory` over the tracked guilds.  The
source dispatches the guilds concurrently with `Promise.all` and each
guild's task threads its upserts through the shared store; the embedding
threads the store sequentially in guild order and collects the results in
the same order. -/
def runGuilds (bots : List Bot) (p : FetchParams) (durStop : Option Nat) :
    List SavedGuild → List SavedMessage → List GuildResult × List SavedMessage
  | [], store => ([], store)
  | g :: gs, store =>
    let (r, store', _) := fetchGuild bots p durStop store g
    let (rs, store'') := runGuilds bots p durStop gs store'
    (r :: rs, store'')

/-- Aggregation tail of `fetchHistory`: partition by `type === 'error'`,
count, and sum `inserted` over the ok partition. -/
def aggregate (results : List GuildResult) : FetchHistoryResult :=
  let (errors, oks) := divide results GuildResult.isError
  { results := results
    errorCount := errors.length
    okCount := oks.length
    messageCount := oks.foldl (fun acc r => acc + r.insertedCount) 0 }

/-- Function `fetchHistory` from `src/index.tsx`: default resolution, the per-guild
fetches over `this.trackedGuilds` (the tracked subset of the saved guilds),
and the aggregate report.  Also returns the message store after all
upserts. -/
def fetchHistory (bots : List Bot) (cfg : Config)
    (savedGuilds : List SavedGuild) (store : List SavedMessage)
    (opts : FetchHistoryOptions) : FetchHistoryResult × List SavedMessage :=
  let p : FetchParams :=
    { start := opts.duration.start
      stopOnOld := opts.stopOnOld.getD true
      maxCount := opts.maxCount.getD cfg.maxCount }
  let tracked := savedGuilds.filter (fun g => g.isTracked)
  let (results, store') := runGuilds bots p opts.duration.stop tracked store
  (aggregate results, store')

/-- Function `gc` from `src/index.tsx`: `null` when disabled; otherwise one
conditional bulk delete
`timestamp < now - olderThan*24*60*60*1000 AND (untrackedOnly ? NOT (platform:guildId IN trackedGids) : true)`
returning the removed-row count.  Result: the store after the delete and
`none` for `null` / `some removed` otherwise. -/
def gcDelete (minTime : Int) (untrackedOnly : Bool) (trackedGids : List String)
    (m : SavedMessage) : Bool :=
  decide ((m.timestamp : Int) < minTime) &&
    (if untrackedOnly then !(trackedGids.contains (getGid m.platform m.guildId))
     else true)

def gc (cfg : Config) (savedGuilds : List SavedGuild) (now : Int)
    (store : List SavedMessage) : List SavedMessage × Option Nat :=
  if !cfg.gcEnabled then (store, none)
  else
    let minTime : Int := now - cfg.gcOlderThan * 24 * 60 * 60 * 1000
    let trackedGids :=
      (savedGuilds.filter (fun g => g.isTracked)).map
        (fun g => getGid g.platform g.guildId)
    let pred := gcDelete minTime cfg.gcUntrackedOnly trackedGids
    ((store.filter (fun m => !pred m)), some (store.filter pred).length)

/-- JS `Map.set` on the string-keyed guild map (replace or append). -/
def mapSet (m : List (String × SavedGuild)) (k : String) (v : SavedGuild) :
    List (String × SavedGuild) :=
  if m.any (fun kv => kv.1 == k) then
    m.map (fun kv => if kv.1 == k then (k, v) else kv)
  else m ++ [(k, v)]

/-- JS `Map.get`. -/
def mapGet (m : List (String × SavedGuild)) (k : String) : Option SavedGuild :=
  (m.find? (fun kv => kv.1 == k)).map (fun kv => kv.2)

/-- Function `mapFrom(guilds, getGid)` from `shared/utils.ts`
(later entries overwrite earlier ones, as in a JS `Map` constructor). -/
def mapFrom (guilds : List SavedGuild) : List (String × SavedGuild) :=
  guilds.foldl (fun m g => mapSet m (getGid g.platform g.guildId) g) []

/-- The values of the guild map (`this.savedGuilds`). -/
def mapValues (m : List (String × SavedGuild)) : List SavedGuild :=
  m.map (fun kv => kv.2)

/-- The session fields `saveMessage` reads; a direct message has a falsy
`guildId`, modelled as the empty string. -/
structure Session where
  platform : String
  selfId : String
  guildId : String
  userId : String
  username : String
  content : String
  timestamp : Nat
  messageId : String
deriving DecidableEq, Repr

/-- Function `saveMessage` from `src/index.tsx` (the `message`/`send` ingestion hook):
readonly check, guild-context check, lazy registration of an unknown guild
(skipped entirely when `requireTracking` drops the message), then the
message upsert. `botGuildName` is the name `session.bot.getGuild` returns.
Result: the in-memory guild map, the guild table, and the message table. -/
def saveMessage (cfg : Config) (guildMap : List (String × SavedGuild))
    (guildTbl : List SavedGuild) (msgTbl : List SavedMessage)
    (sess : Session) (botGuildName : String) :
    List (String × SavedGuild) × List SavedGuild × List SavedMessage :=
  if cfg.readonly then (guildMap, guildTbl, msgTbl)
  else if sess.guildId == "" then (guildMap, guildTbl, msgTbl)
  else
    let gid := getGid sess.platform sess.guildId
    let saved := mapGet guildMap gid
    let isTracked := match saved with
      | some g => g.isTracked
      | none => false
    if !isTracked && cfg.requireTracking then (guildMap, guildTbl, msgTbl)
    else
      let (guildMap', guildTbl') :=
        if !isTracked && saved.isNone then
          let newGuild : SavedGuild :=
            { platform := sess.platform
              guildId := sess.guildId
              name := botGuildName
              managerBotId := sess.selfId
              isTracked := false }
          (mapSet guildMap gid newGuild, upsertGuild guildTbl newGuild)
        else (guildMap, guildTbl)
      let message : SavedMessage :=
        { id := sess.messageId
          platform := sess.platform
          guildId := sess.guildId
          userId := sess.userId
          username := sess.username
          content := sess.content
          timestamp := sess.timestamp }
      (guildMap', guildTbl', (upsertMessage msgTbl message).1)

/-- Method `MdbService.start`: rehydrate the guild map from the guild table, then —
unless readonly — `await this.fetchHistory({duration:{start:0,end:launchTime}})`.
The store and optional batch report returned are the state and data available
when `start` resolves (the call is awaited, so they include the backfill). -/
def MdbService.start (bots : List Bot) (cfg : Config)
    (dbGuilds : List SavedGuild) (store : List SavedMessage)
    (launchTime : Nat) :
    List (String × SavedGuild) × List SavedMessage × Option FetchHistoryResult :=
  let guildMap := mapFrom dbGuilds
  if cfg.readonly then (guildMap, store, none)
  else
    let (r, store') := fetchHistory bots cfg (mapValues guildMap) store
      ⟨⟨some 0, some launchTime⟩, none, none⟩
    (guildMap, store', some r)

/-- The fetchable message stream of a page chain: what `getMessageIter`
yields in total (each page's data reversed, the stream ending at a null
`data`, a falsy `next`, or a throwing fetch). -/
def flattenPages : List Page → List RawMessage
  | [] => []
  | .fail :: _ => []
  | .page none _ :: _ => []
  | .page (some d) h :: rest =>
    d.reverse ++ (if h then flattenPages rest else [])

/-- Modelled from the spec: the serial number of the page containing the
`n`-th fetchable message of a chain (the count of pages up to and
including it), used to compare against the number of pages the loop
actually requests. -/
def pagesToReach : List Page → Nat → Nat
  | [], _ => 0
  | .fail :: _, _ => 0
  | .page none _ :: _, _ => 0
  | .page (some d) h :: rest, n =>
    if n ≤ d.length then 1
    else if h then 1 + pagesToReach rest (n - d.length) else 1

/-- Count of the non-empty-content messages of a list. -/
def countNE (ms : List RawMessage) : Nat :=
  (ms.filter (fun m => !(m.content == ""))).length

/-- Count of the empty-content (skipped) messages of a list. -/
def countEmpty (ms : List RawMessage) : Nat :=
  (ms.filter (fun m => m.content == "")).length

/-- The records the loop inserts for a processed message run: the non-empty
messages, in order, as storable records. -/
def insertedOf (platform guildId : String) (ms : List RawMessage) :
    List SavedMessage :=
  (ms.filter (fun m => !(m.content == ""))).map (toSaved platform guildId)

/-! Concrete fixtures used by the claims' closed statements and witnesses. -/

/-- A raw message with fixed author fields. -/
def mkRaw (i c : String) (ts : Nat) : RawMessage :=
  ⟨i, c, ts, "u7", "Alice", ""⟩

/-- A tracked guild on platform `p` managed by bot `b`. -/
def fixGuild : SavedGuild := ⟨"p", "g", "G", "b", true⟩

/-- Claim C1's source: first page yielding timestamps 100, 90, 80 with a
further page holding 70. -/
def fix1Pages : List Page :=
  [.page (some [mkRaw "m80" "hey" 80, mkRaw "m90" "hey" 90,
                mkRaw "m100" "hey" 100]) true,
   .page (some [mkRaw "m70" "hey" 70]) false]

def fix1Bot : Bot := ⟨"p", "b", true, false, fun _ _ => fix1Pages⟩

/-- Claim C2's source with an empty-content message first
(iteration order: empty, then `ma`, then `mb`). -/
def fix2PagesA : List Page :=
  [.page (some [mkRaw "mb" "hi" 1, mkRaw "ma" "hi" 2, mkRaw "me" "" 3]) false]

/-- Claim C2's source with the empty message removed. -/
def fix2PagesB : List Page :=
  [.page (some [mkRaw "mb" "hi" 1, mkRaw "ma" "hi" 2]) false]

def fix2BotA : Bot := ⟨"p", "b", true, false, fun _ _ => fix2PagesA⟩
def fix2BotB : Bot := ⟨"p", "b", true, false, fun _ _ => fix2PagesB⟩

/-- Claim C3's witness source: three non-empty messages and one empty one,
split over two pages, with a third page that must never be requested. -/
def fix3Pages : List Page :=
  [.page (some [mkRaw "w2" "hi" 7, mkRaw "w1" "" 8, mkRaw "w0" "hi" 9]) true,
   .page (some [mkRaw "w4" "hi" 5, mkRaw "w3" "hi" 6]) true,
   .page (some [mkRaw "w5" "hi" 4]) false]

def fix3Bot : Bot := ⟨"p", "b", true, false, fun _ _ => fix3Pages⟩

/-- Claim C4's configuration: live, with the `requireTracking` policy on. -/
def fix4Cfg : Config := ⟨false, true, 100, false, 7, false⟩

/-- Claim C4's session: a guild message from a guild unknown to the registry. -/
def fix4Sess : Session := ⟨"p", "b", "g", "u7", "Alice", "hi", 5, "m1"⟩

/-- Claim C5's configuration: live (readonly off). -/
def fix5Cfg : Config := ⟨false, false, 100, false, 7, false⟩

def fix5Bot : Bot := ⟨"p", "b", true, false, fun _ _ => fix2PagesB⟩

/-- Claims C7/C8's store: one old message in the tracked guild `p:g` and one
in the untracked guild `p:h`, both older than the cutoff. -/
def fixOldTracked : SavedMessage := ⟨"t1", "p", "g", "u7", "Alice", "hi", 100⟩
def fixOldUntracked : SavedMessage := ⟨"u1", "p", "h", "u7", "Alice", "hi", 100⟩

/-- Claim C10's store: the most recent message before time 100 belongs to
guild `h`, not to the backfilled guild `g`. -/
def fix10Mine : SavedMessage := ⟨"mine", "onebot", "g", "u7", "Alice", "hi", 50⟩
def fix10Other : SavedMessage := ⟨"other", "onebot", "h", "u7", "Alice", "hi", 60⟩

/-- Claim C10's NapCat bot: yields a marker message only when started from
the cross-guild cursor `other`, so the cursor actually used is observable. -/
def fix10Bot : Bot :=
  ⟨"onebot", "b", true, true, fun _ tok =>
    if tok == some "other" then [.page (some [mkRaw "marker" "hi" 1]) false]
    else []⟩

def fix10Guild : SavedGuild := ⟨"onebot", "g", "G", "b", true⟩

/-- GC configurations: enabled with `untrackedOnly`, enabled without it,
and disabled. -/
def fix7CfgOn : Config := ⟨false, false, 100, true, 1, true⟩
def fix7CfgOff : Config := ⟨false, false, 100, true, 1, false⟩
def fix7CfgDisabled : Config := ⟨false, false, 100, false, 1, true⟩

/-!  ## Theorems  -/

/-- Claim C1: with a source yielding timestamps 100, 90, 80, 70,
`duration.start = 85` and `stopOnOld = false`, the per-guild result is ok
with exit `done`: the messages at 100 and 90 are inserted, the message at
80 (first older than `duration.start`) triggers the `done` exit, only one
page is requested, and the message at 70 is never fetched or inserted; and
in general, a processed message (non-empty content, not cut by `maxCount`)
older than `duration.start` stops the fetch with exit `done` for either
value of `stopOnOld`. -/
theorem claim_C1_duration_start_cutoff :
    fetchGuild [fix1Bot] ⟨some 85, false, 100⟩ none [] fixGuild =
      (.ok fixGuild 3 .done,
       [toSaved "p" "g" (mkRaw "m100" "hey" 100),
        toSaved "p" "g" (mkRaw "m90" "hey" 90),
        toSaved "p" "g" (mkRaw "m80" "hey" 80)], 1) ∧
    (∀ (p : FetchParams) (platform guildId : String) (s : LoopState)
       (m : RawMessage) (b : Nat),
      p.start = some b → s.count ≠ p.maxCount → m.content ≠ "" →
      m.timestamp < b →
      stepMsg p platform guildId s m =
        .stop (upsertMessage s.store (toSaved platform guildId m)).1
          (s.inserted +
            if (upsertMessage s.store (toSaved platform guildId m)).2 then 1
            else 0)
          .done) := by
  refine ⟨by decide, ?_⟩
  intro p platform guildId s m b hb hc hne hlt
  rcases hup : upsertMessage s.store (toSaved platform guildId m) with ⟨st, ins⟩
  simp [stepMsg, hc, hne, hup, tsLtStart, hb, hlt]

/-- Witness for claim C1: the general cutoff statement applied at the
message with timestamp 80 against `duration.start = 85`. -/
theorem claim_C1_witness :
    stepMsg ⟨some 85, false, 100⟩ "p" "g" ⟨[], 0, 0⟩ (mkRaw "m80" "hey" 80) =
      .stop [toSaved "p" "g" (mkRaw "m80" "hey" 80)] 1 .done :=
  claim_C1_duration_start_cutoff.2 ⟨some 85, false, 100⟩ "p" "g" ⟨[], 0, 0⟩
    (mkRaw "m80" "hey" 80) 85 rfl (by decide) (by decide) (by decide)

/-- Counterexample for claim C2: with `maxCount = 2`, the source
empty, `ma`, `mb` (newest first) exits `reached-max` at `mb`, which is not
inserted; the same source with the empty message removed processes and
inserts `mb` and exits `exhausted`.  The empty-content message consumed a
`maxCount` slot and made `reached-max` trigger earlier on the later
non-empty message `mb`. -/
theorem claim_C2_counterexample :
    fetchGuild [fix2BotA] ⟨none, false, 2⟩ none [] fixGuild =
      (.ok fixGuild 1 .reachedMax, [toSaved "p" "g" (mkRaw "ma" "hi" 2)], 1) ∧
    fetchGuild [fix2BotB] ⟨none, false, 2⟩ none [] fixGuild =
      (.ok fixGuild 2 .exhausted,
       [toSaved "p" "g" (mkRaw "ma" "hi" 2),
        toSaved "p" "g" (mkRaw "mb" "hi" 1)], 1) := by
  exact ⟨by decide, by decide⟩

/-- Claim C2 as amended: a message with empty content is never upserted and
does not increment the inserted counter, but it does consume a slot of the
`maxCount` seen-count — the loop increments the seen-count before the
empty-content skip. -/
theorem claim_C2_amended :
    ∀ (p : FetchParams) (platform guildId : String) (s : LoopState)
      (m : RawMessage),
      s.count ≠ p.maxCount → m.content = "" →
      stepMsg p platform guildId s m = .next ⟨s.store, s.count + 1, s.inserted⟩ := by
  intro p platform guildId s m hc he
  simp [stepMsg, hc, he]

/-- Witness for claim C2: the amended skip statement applied at a concrete
empty-content message. -/
theorem claim_C2_witness :
    stepMsg ⟨none, false, 2⟩ "p" "g" ⟨[], 0, 0⟩ (mkRaw "me" "" 3) =
      .next ⟨[], 1, 0⟩ :=
  claim_C2_amended ⟨none, false, 2⟩ "p" "g" ⟨[], 0, 0⟩ (mkRaw "me" "" 3)
    (by decide) (by decide)

/-- Counterexample for claim C4: readonly is off, the message has a guild
context, the guild is unknown to the registry, and `requireTracking` is
enabled — yet `saveMessage` leaves the registry, the guild table and the
message table untouched: no `SavedGuild` entry is created. -/
theorem claim_C4_counterexample :
    saveMessage fix4Cfg [] [] [] fix4Sess "G" = ([], [], []) ∧
    fix4Cfg.readonly = false ∧ fix4Cfg.requireTracking = true ∧
    fix4Sess.guildId ≠ "" ∧
    mapGet [] (getGid fix4Sess.platform fix4Sess.guildId) = none := by
  exact ⟨by decide, rfl, rfl, by decide, rfl⟩

/-- Claim C4 as amended: an unknown guild's registry entry (with
`isTracked = false`) is created and upserted only when `requireTracking` is
off; with `requireTracking` enabled the message from an untracked guild is
dropped before the lazy registration, so the guild does not become known. -/
theorem claim_C4_amended :
    ∀ (cfg : Config) (gm : List (String × SavedGuild)) (gt : List SavedGuild)
      (mt : List SavedMessage) (sess : Session) (gname : String),
      cfg.readonly = false → cfg.requireTracking = false → sess.guildId ≠ "" →
      mapGet gm (getGid sess.platform sess.guildId) = none →
      saveMessage cfg gm gt mt sess gname =
        (mapSet gm (getGid sess.platform sess.guildId)
           ⟨sess.platform, sess.guildId, gname, sess.selfId, false⟩,
         upsertGuild gt ⟨sess.platform, sess.guildId, gname, sess.selfId, false⟩,
         (upsertMessage mt
            ⟨sess.messageId, sess.platform, sess.guildId, sess.userId,
             sess.username, sess.content, sess.timestamp⟩).1) := by
  intro cfg gm gt mt sess gname hro hrt hg hnone
  simp [saveMessage, hro, hrt, hg, hnone]

/-- Witness for claim C4: the amended registration statement at a concrete
unknown guild with `requireTracking` off. -/
theorem claim_C4_witness :
    saveMessage ⟨false, false, 100, false, 7, false⟩ [] [] [] fix4Sess "G" =
      (mapSet [] (getGid "p" "g") ⟨"p", "g", "G", "b", false⟩,
       upsertGuild [] ⟨"p", "g", "G", "b", false⟩,
       (upsertMessage [] ⟨"m1", "p", "g", "u7", "Alice", "hi", 5⟩).1) :=
  claim_C4_amended ⟨false, false, 100, false, 7, false⟩ [] [] [] fix4Sess "G"
    rfl rfl (by decide) rfl

/-- Counterexample for claim C5: at the moment `start` completes, the
message store already holds the two backfilled messages and the batch
report is available — the startup call awaited the backfill instead of
firing and forgetting it, so startup completion does wait on the backfill
settling. -/
theorem claim_C5_counterexample :
    MdbService.start [fix5Bot] fix5Cfg [fixGuild] [] 1000 =
      (mapFrom [fixGuild],
       [toSaved "p" "g" (mkRaw "ma" "hi" 2), toSaved "p" "g" (mkRaw "mb" "hi" 1)],
       some ⟨[.ok fixGuild 2 .exhausted], 0, 1, 2⟩) ∧
    ([] : List SavedMessage) ≠
      [toSaved "p" "g" (mkRaw "ma" "hi" 2), toSaved "p" "g" (mkRaw "mb" "hi" 1)] := by
  exact ⟨by decide, by decide⟩

/-- Claim C5 as amended: on a non-readonly start, `fetchHistory` is invoked
exactly once with `duration = {start: 0, end: launch-time}` and the default
`stopOnOld = true`, and it is awaited: the state and report returned by
`start` are those after the backfill settles. -/
theorem claim_C5_amended :
    ∀ (bots : List Bot) (cfg : Config) (dbGuilds : List SavedGuild)
      (store : List SavedMessage) (launchTime : Nat),
      cfg.readonly = false →
      (MdbService.start bots cfg dbGuilds store launchTime =
        (mapFrom dbGuilds,
         (fetchHistory bots cfg (mapValues (mapFrom dbGuilds)) store
            ⟨⟨some 0, some launchTime⟩, none, none⟩).2,
         some (fetchHistory bots cfg (mapValues (mapFrom dbGuilds)) store
            ⟨⟨some 0, some launchTime⟩, none, none⟩).1)) ∧
      (∀ gs, fetchHistory bots cfg gs store ⟨⟨some 0, some launchTime⟩, none, none⟩ =
         fetchHistory bots cfg gs store
           ⟨⟨some 0, some launchTime⟩, some true, none⟩) := by
  intro bots cfg dbGuilds store launchTime hro
  exact ⟨by simp [MdbService.start, hro], fun gs => rfl⟩

/-- Witness for claim C5: the amended startup statement at a concrete
non-readonly configuration. -/
theorem claim_C5_witness :
    MdbService.start [fix5Bot] fix5Cfg [fixGuild] [] 1000 =
      (mapFrom [fixGuild],
       (fetchHistory [fix5Bot] fix5Cfg (mapValues (mapFrom [fixGuild])) []
          ⟨⟨some 0, some 1000⟩, none, none⟩).2,
       some (fetchHistory [fix5Bot] fix5Cfg (mapValues (mapFrom [fixGuild])) []
          ⟨⟨some 0, some 1000⟩, none, none⟩).1) :=
  (claim_C5_amended [fix5Bot] fix5Cfg [fixGuild] [] 1000 rfl).1

/-- Claim C6: with `stopOnOld = true`, as soon as the upsert of a processed
message reports the id already existed, the fetch stops immediately with
exit `done` — the store and inserted counter are left as they were, no
later message of the page is processed, and no further page is
requested. -/
theorem claim_C6_stop_on_old_done :
    (∀ (p : FetchParams) (platform guildId : String) (s : LoopState)
       (m : RawMessage) (rest : List RawMessage),
      p.stopOnOld = true → s.count ≠ p.maxCount → m.content ≠ "" →
      (∃ r ∈ s.store, r.id = m.id) →
      runMsgs p platform guildId (m :: rest) s = .inr (s.store, s.inserted, .done)) ∧
    (∀ (p : FetchParams) (platform guildId : String)
       (data : List RawMessage) (hasNext : Bool) (rest : List Page)
       (s : LoopState) (st : List SavedMessage) (i : Nat),
      runMsgs p platform guildId data.reverse s = .inr (st, i, .done) →
      runPages p platform guildId (.page (some data) hasNext :: rest) s =
        (st, .ok i .done, 1)) := by
  constructor
  · intro p platform guildId s m rest hso hc hne hex
    obtain ⟨r, hr, hid⟩ := hex
    have hany : s.store.any (fun x => x.id == (toSaved platform guildId m).id) = true := by
      simp only [List.any_eq_true]
      exact ⟨r, hr, by simp [toSaved, hid]⟩
    have hup : upsertMessage s.store (toSaved platform guildId m) = (s.store, false) := by
      simp [upsertMessage, hany]
    have hstep : stepMsg p platform guildId s m = .stop s.store s.inserted .done := by
      simp [stepMsg, hc, hne, hup, hso]
    simp [runMsgs, hstep]
  · intro p platform guildId data hasNext rest s st i h
    simp [runPages, h]

/-- Witness for claim C6: a store already holding the first message of the
page; the fetch stops at it with `done` and inserts nothing. -/
theorem claim_C6_witness :
    runMsgs ⟨none, true, 5⟩ "p" "g" [mkRaw "m1" "hi" 9, mkRaw "m0" "hi" 8]
      ⟨[toSaved "p" "g" (mkRaw "m1" "hi" 9)], 0, 0⟩ =
      .inr ([toSaved "p" "g" (mkRaw "m1" "hi" 9)], 0, .done) :=
  claim_C6_stop_on_old_done.1 ⟨none, true, 5⟩ "p" "g"
    ⟨[toSaved "p" "g" (mkRaw "m1" "hi" 9)], 0, 0⟩ (mkRaw "m1" "hi" 9)
    [mkRaw "m0" "hi" 8] rfl (by decide) (by decide)
    ⟨toSaved "p" "g" (mkRaw "m1" "hi" 9), by simp, rfl⟩

/-- The GC delete predicate, spelled as the spec states it. -/
theorem gcDelete_iff (minTime : Int) (uo : Bool) (tgids : List String)
    (m : SavedMessage) :
    gcDelete minTime uo tgids m = true ↔
      ((m.timestamp : Int) < minTime ∧
        (uo = true → getGid m.platform m.guildId ∉ tgids)) := by
  cases uo <;> simp [gcDelete, List.contains, List.elem_iff]

/-- When enabled, `gc` is the single conditional bulk delete. -/
theorem gc_enabled_eq (cfg : Config) (gs : List SavedGuild) (now : Int)
    (store : List SavedMessage) (hen : cfg.gcEnabled = true) :
    gc cfg gs now store =
      (store.filter (fun m =>
        !gcDelete (now - cfg.gcOlderThan * 24 * 60 * 60 * 1000)
          cfg.gcUntrackedOnly
          ((gs.filter (fun g => g.isTracked)).map
            (fun g => getGid g.platform g.guildId)) m),
       some (store.filter
        (gcDelete (now - cfg.gcOlderThan * 24 * 60 * 60 * 1000)
          cfg.gcUntrackedOnly
          ((gs.filter (fun g => g.isTracked)).map
            (fun g => getGid g.platform g.guildId)))).length) := by
  simp [gc, hen]

/-- Claim C7: `gc` returns `null` exactly when garbage collection is
disabled by configuration; when enabled it returns the number of rows the
delete actually removed (the remaining rows plus the returned count make up
the whole store), which is `some 0` — not `null` — when no stored message
is older than the cutoff. -/
theorem claim_C7_gc_disabled_signal :
    ∀ (cfg : Config) (gs : List SavedGuild) (now : Int)
      (store : List SavedMessage),
      ((gc cfg gs now store).2 = none ↔ cfg.gcEnabled = false) ∧
      (cfg.gcEnabled = true →
        (gc cfg gs now store).1.length + ((gc cfg gs now store).2.getD 0) =
          store.length ∧
        (gc cfg gs now store).2 ≠ none ∧
        ((∀ m ∈ store,
            ¬ ((m.timestamp : Int) <
                now - cfg.gcOlderThan * 24 * 60 * 60 * 1000)) →
          (gc cfg gs now store).2 = some 0)) := by
  intro cfg gs now store
  cases hen : cfg.gcEnabled with
  | false =>
    refine ⟨by simp [gc, hen], by simp [hen]⟩
  | true =>
    rw [gc_enabled_eq cfg gs now store hen]
    refine ⟨by simp [hen], fun _ => ⟨?_, by simp, fun hold => ?_⟩⟩
    · have h := @List.length_eq_length_filter_add SavedMessage store
        (gcDelete (now - cfg.gcOlderThan * 24 * 60 * 60 * 1000)
          cfg.gcUntrackedOnly
          ((gs.filter (fun g => g.isTracked)).map
            (fun g => getGid g.platform g.guildId)))
      simp only [Option.getD_some]
      omega
    · have hnil : store.filter
          (gcDelete (now - cfg.gcOlderThan * 24 * 60 * 60 * 1000)
            cfg.gcUntrackedOnly
            ((gs.filter (fun g => g.isTracked)).map
              (fun g => getGid g.platform g.guildId))) = [] := by
        rw [List.filter_eq_nil_iff]
        intro m hm
        rw [gcDelete_iff]
        intro hcontra
        exact hold m hm hcontra.1
      simp [hnil]

/-- Witness for claim C7: GC enabled over a store with one old tracked and
one old untracked message under `untrackedOnly`, and the zero-removal case
when nothing is older than the cutoff. -/
theorem claim_C7_witness :
    (gc fix7CfgOn [fixGuild] 50 [fixOldTracked]).1.length +
        ((gc fix7CfgOn [fixGuild] 50 [fixOldTracked]).2.getD 0) = 1 ∧
      (gc fix7CfgOn [fixGuild] 50 [fixOldTracked]).2 = some 0 :=
  ⟨((claim_C7_gc_disabled_signal fix7CfgOn [fixGuild] 50 [fixOldTracked]).2
      rfl).1,
   ((claim_C7_gc_disabled_signal fix7CfgOn [fixGuild] 50 [fixOldTracked]).2
      rfl).2.2 (by decide)⟩

/-- Claim C8: when enabled, the GC delete removes precisely the messages
with `timestamp < now - olderThanDays * 86400000`, restricted — when
`untrackedOnly` is set — to messages whose `platform:guildId` key is not in
the tracked-guild set: a message survives the sweep exactly when it fails
that predicate. -/
theorem claim_C8_gc_predicate :
    ∀ (cfg : Config) (gs : List SavedGuild) (now : Int)
      (store : List SavedMessage) (m : SavedMessage),
      cfg.gcEnabled = true →
      (m ∈ (gc cfg gs now store).1 ↔
        m ∈ store ∧
          ¬ ((m.timestamp : Int) < now - cfg.gcOlderThan * 86400000 ∧
             (cfg.gcUntrackedOnly = true →
               getGid m.platform m.guildId ∉
                 (gs.filter (fun g => g.isTracked)).map
                   (fun g => getGid g.platform g.guildId)))) := by
  intro cfg gs now store m hen
  have h86 : ∀ x : Int, x * 86400000 = x * 24 * 60 * 60 * 1000 := fun x => by
    ring
  rw [gc_enabled_eq cfg gs now store hen]
  simp only [List.mem_filter, h86]
  refine and_congr_right fun _ => ?_
  rw [Bool.not_eq_true', Bool.eq_false_iff]
  exact not_congr (gcDelete_iff _ _ _ _)

set_option maxRecDepth 4000 in
/-- Witness for claim C8: under `untrackedOnly`, the tracked guild's old
message survives the sweep. -/
theorem claim_C8_witness :
    fixOldTracked ∈
        (gc fix7CfgOn [fixGuild] (86400000 + 200)
          [fixOldTracked, fixOldUntracked]).1 ↔
      fixOldTracked ∈ ([fixOldTracked, fixOldUntracked] : List SavedMessage) ∧
        ¬ ((fixOldTracked.timestamp : Int) <
              (86400000 + 200) - fix7CfgOn.gcOlderThan * 86400000 ∧
           (fix7CfgOn.gcUntrackedOnly = true →
             getGid fixOldTracked.platform fixOldTracked.guildId ∉
               (([fixGuild] : List SavedGuild).filter
                   (fun g => g.isTracked)).map
                 (fun g => getGid g.platform g.guildId))) :=
  claim_C8_gc_predicate fix7CfgOn [fixGuild] (86400000 + 200)
    [fixOldTracked, fixOldUntracked] fixOldTracked rfl

/-- A `none` result of the resume-position query means no stored message is
older than the bound. -/
theorem latestBefore_none (time : Nat) :
    ∀ store : List SavedMessage, latestBefore store time = none →
      ∀ m ∈ store, ¬ m.timestamp < time := by
  intro store
  induction store with
  | nil => intro _ m hm; cases hm
  | cons y ys ih =>
    intro h m hm
    by_cases hy : y.timestamp < time
    · exfalso
      rcases hr : latestBefore ys time with _ | b
      · simp [latestBefore, hy, hr] at h
      · rw [latestBefore] at h
        simp only [hr, if_pos hy] at h
        by_cases hby : b.timestamp < y.timestamp <;> simp [hby] at h
    · have h' : latestBefore ys time = none := by
        rw [latestBefore] at h
        simpa [hy] using h
      rcases List.mem_cons.mp hm with hm | hm
      · exact hm ▸ hy
      · exact ih h' m hm

/-- The resume-position query returns a stored message strictly before the
bound with maximal timestamp among those. -/
theorem latestBefore_spec (time : Nat) :
    ∀ (store : List SavedMessage) (m : SavedMessage),
      latestBefore store time = some m →
      m ∈ store ∧ m.timestamp < time ∧
        ∀ x ∈ store, x.timestamp < time → x.timestamp ≤ m.timestamp := by
  intro store
  induction store with
  | nil => intro m h; cases h
  | cons y ys ih =>
    intro m h
    by_cases hy : y.timestamp < time
    · rcases hr : latestBefore ys time with _ | b
      · have hm : y = m := by
          rw [latestBefore] at h
          simpa [hy, hr] using h
        subst hm
        refine ⟨List.mem_cons_self _ _, hy, ?_⟩
        intro x hx hxt
        rcases List.mem_cons.mp hx with hx | hx
        · exact hx ▸ Nat.le_refl _
        · exact absurd hxt (latestBefore_none time ys hr x hx)
      · obtain ⟨hbmem, hbt, hbmax⟩ := ih b hr
        rw [latestBefore] at h
        simp only [hr, if_pos hy] at h
        by_cases hby : b.timestamp < y.timestamp
        · rw [if_pos hby] at h
          obtain hm : y = m := by simpa using h
          subst hm
          refine ⟨List.mem_cons_self _ _, hy, ?_⟩
          intro x hx hxt
          rcases List.mem_cons.mp hx with hx | hx
          · exact hx ▸ Nat.le_refl _
          · exact Nat.le_trans (hbmax x hx hxt) (Nat.le_of_lt hby)
        · rw [if_neg hby] at h
          obtain hm : b = m := by simpa using h
          subst hm
          refine ⟨List.mem_cons_of_mem _ hbmem, hbt, ?_⟩
          intro x hx hxt
          rcases List.mem_cons.mp hx with hx | hx
          · exact hx ▸ Nat.le_of_not_lt hby
          · exact hbmax x hx hxt
    · have h' : latestBefore ys time = some m := by
        rw [latestBefore] at h
        simpa [hy] using h
      obtain ⟨hmem, hmt, hmax⟩ := ih m h'
      refine ⟨List.mem_cons_of_mem _ hmem, hmt, ?_⟩
      intro x hx hxt
      rcases List.mem_cons.mp hx with hx | hx
      · exact absurd (hx ▸ hxt) hy
      · exact hmax x hx hxt

/-- Claim C10: when the manager bot has the resume-cursor capability, the
start cursor computed by `getStartTokenBefore` is the id of the most recent
stored message with timestamp before `duration.end` over the entire message
table — the query is not restricted to the backfilled guild, and in the
concrete store the cursor handed to the bot is the id of another guild's
message (witnessed by the marker message fetched from that cursor). -/
theorem claim_C10_cross_guild_cursor :
    (∀ (bot : Bot) (store : List SavedMessage) (time : Nat) (m : SavedMessage),
      bot.platform = "onebot" → bot.isNapCat = true →
      latestBefore store time = some m →
      getStartTokenBefore bot store time = some m.id ∧
      m ∈ store ∧ m.timestamp < time ∧
        ∀ x ∈ store, x.timestamp < time → x.timestamp ≤ m.timestamp) ∧
    (getStartTokenBefore fix10Bot [fix10Mine, fix10Other] 100 = some "other" ∧
     fix10Other.guildId ≠ fix10Guild.guildId ∧
     fetchGuild [fix10Bot] ⟨none, false, 100⟩ (some 100)
        [fix10Mine, fix10Other] fix10Guild =
       (.ok fix10Guild 1 .exhausted,
        [fix10Mine, fix10Other, toSaved "onebot" "g" (mkRaw "marker" "hi" 1)],
        1)) := by
  constructor
  · intro bot store time m hp hnap hlb
    refine ⟨?_, latestBefore_spec time store m hlb⟩
    simp [getStartTokenBefore, hp, hnap, hlb]
  · exact ⟨by decide, by decide, by decide⟩

/-- Witness for claim C10: the general cursor statement at the concrete
cross-guild store. -/
theorem claim_C10_witness :
    getStartTokenBefore fix10Bot [fix10Mine, fix10Other] 100 =
      some fix10Other.id :=
  (claim_C10_cross_guild_cursor.1 fix10Bot [fix10Mine, fix10Other] 100
    fix10Other rfl rfl (by decide)).1

/-- Function `divide` returns the matching elements first. -/
theorem divide_fst (l : List α) (p : α → Bool) : (divide l p).1 = l.filter p := by
  induction l with
  | nil => rfl
  | cons x xs ih => cases h : p x <;> simp [divide, h, ih]

/-- Function `divide` returns the non-matching elements second. -/
theorem divide_snd (l : List α) (p : α → Bool) :
    (divide l p).2 = l.filter (fun x => !p x) := by
  induction l with
  | nil => rfl
  | cons x xs ih => cases h : p x <;> simp [divide, h, ih]

/-- A left fold of additions is the sum of the mapped list. -/
theorem foldl_add_map (f : α → Nat) :
    ∀ (l : List α) (a : Nat),
      l.foldl (fun acc x => acc + f x) a = a + (l.map f).sum := by
  intro l
  induction l with
  | nil => intro a; simp
  | cons x xs ih =>
    intro a
    simp [List.foldl, ih (a + f x), Nat.add_assoc]

/-- The batch report aggregation: counts partition the results and
`messageCount` sums `inserted` over the non-error results. -/
theorem aggregate_spec (rs : List GuildResult) :
    (aggregate rs).errorCount + (aggregate rs).okCount =
      (aggregate rs).results.length ∧
    (aggregate rs).messageCount =
      (((aggregate rs).results.filter (fun r => !r.isError)).map
        GuildResult.insertedCount).sum := by
  constructor
  · show (divide rs GuildResult.isError).1.length +
      (divide rs GuildResult.isError).2.length = rs.length
    rw [divide_fst, divide_snd]
    have h := @List.length_eq_length_filter_add GuildResult rs GuildResult.isError
    omega
  · show (divide rs GuildResult.isError).2.foldl
      (fun acc r => acc + r.insertedCount) 0 =
      ((rs.filter (fun r => !r.isError)).map GuildResult.insertedCount).sum
    rw [divide_snd, foldl_add_map, Nat.zero_add]

/-- Claim C9: every `fetchHistory` batch report satisfies
`errorCount + okCount = results.length`, and `messageCount` is the sum of
the `inserted` fields over exactly the results of type ok. -/
theorem claim_C9_batch_invariant :
    ∀ (bots : List Bot) (cfg : Config) (savedGuilds : List SavedGuild)
      (store : List SavedMessage) (opts : FetchHistoryOptions),
      ((fetchHistory bots cfg savedGuilds store opts).1.errorCount +
          (fetchHistory bots cfg savedGuilds store opts).1.okCount =
        (fetchHistory bots cfg savedGuilds store opts).1.results.length) ∧
      ((fetchHistory bots cfg savedGuilds store opts).1.messageCount =
        (((fetchHistory bots cfg savedGuilds store opts).1.results.filter
            (fun r => !r.isError)).map GuildResult.insertedCount).sum) := by
  intro bots cfg savedGuilds store opts
  rcases hr : runGuilds bots
      ⟨opts.duration.start, opts.stopOnOld.getD true,
        opts.maxCount.getD cfg.maxCount⟩
      opts.duration.stop (savedGuilds.filter (fun g => g.isTracked)) store
    with ⟨rs, st⟩
  have hfh : fetchHistory bots cfg savedGuilds store opts = (aggregate rs, st) := by
    simp [fetchHistory, hr]
  rw [hfh]
  exact aggregate_spec rs

/-- Every record the loop inserts carries the id of one of the fetched
messages. -/
theorem mem_insertedOf_id (platform guildId : String) (ms : List RawMessage)
    (r : SavedMessage) :
    r ∈ insertedOf platform guildId ms → ∃ m' ∈ ms, r.id = m'.id := by
  intro hr
  simp only [insertedOf, List.mem_map, List.mem_filter] at hr
  obtain ⟨m', ⟨hm', _⟩, hrq⟩ := hr
  exact ⟨m', hm', by rw [← hrq]; rfl⟩

/-- Function `insertedOf` distributes over appending of message runs. -/
theorem insertedOf_append (platform guildId : String)
    (xs ys : List RawMessage) :
    insertedOf platform guildId (xs ++ ys) =
      insertedOf platform guildId xs ++ insertedOf platform guildId ys := by
  simp [insertedOf]

/-- Function `countNE` distributes over appending of message runs. -/
theorem countNE_append (xs ys : List RawMessage) :
    countNE (xs ++ ys) = countNE xs + countNE ys := by
  simp [countNE]

/-- The empty and non-empty messages partition a run. -/
theorem countNE_add_countEmpty (ms : List RawMessage) :
    countNE ms + countEmpty ms = ms.length := by
  have h := @List.length_eq_length_filter_add RawMessage ms
    (fun m => m.content == "")
  simp only [countNE, countEmpty]
  omega

/-- Processing a run of fresh messages that fits in the remaining
`maxCount` budget: every non-empty message is inserted, every message
consumes one seen-count slot, and the loop asks for more. -/
theorem runMsgs_all (p : FetchParams) (platform guildId : String) :
    ∀ (ms : List RawMessage) (s : LoopState),
      (∀ m ∈ ms, tsLtStart m.timestamp p.start = false) →
      (∀ m ∈ ms, ∀ r ∈ s.store, r.id ≠ m.id) →
      (ms.map RawMessage.id).Nodup →
      s.count ≤ p.maxCount →
      ms.length ≤ p.maxCount - s.count →
      runMsgs p platform guildId ms s =
        .inl ⟨s.store ++ insertedOf platform guildId ms,
              s.count + ms.length, s.inserted + countNE ms⟩ := by
  intro ms
  induction ms with
  | nil =>
    intro s _ _ _ _ _
    simp [runMsgs, insertedOf, countNE]
  | cons m ms' ih =>
    intro s hts hfr hnd hcnt hlen
    have hclt : s.count < p.maxCount := by
      simp only [List.length_cons] at hlen
      omega
    have hcne : s.count ≠ p.maxCount := Nat.ne_of_lt hclt
    cases hme : m.content == "" with
    | true =>
      have hstep : stepMsg p platform guildId s m =
          .next ⟨s.store, s.count + 1, s.inserted⟩ := by
        simp [stepMsg, hcne, hme]
      have hrec := ih ⟨s.store, s.count + 1, s.inserted⟩
        (fun x hx => hts x (List.mem_cons_of_mem m hx))
        (fun x hx r hr => hfr x (List.mem_cons_of_mem m hx) r hr)
        (by simpa using hnd.of_cons)
        (show s.count + 1 ≤ p.maxCount by omega)
        (show ms'.length ≤ p.maxCount - (s.count + 1) by
          simp only [List.length_cons] at hlen; omega)
      calc runMsgs p platform guildId (m :: ms') s
          = runMsgs p platform guildId ms' ⟨s.store, s.count + 1, s.inserted⟩ := by
            simp only [runMsgs, hstep]
        _ = .inl ⟨s.store ++ insertedOf platform guildId ms',
              (s.count + 1) + ms'.length, s.inserted + countNE ms'⟩ := hrec
        _ = .inl ⟨s.store ++ insertedOf platform guildId (m :: ms'),
              s.count + (m :: ms').length, s.inserted + countNE (m :: ms')⟩ := by
            have h1 : insertedOf platform guildId (m :: ms') =
                insertedOf platform guildId ms' := by simp [insertedOf, hme]
            have h2 : countNE (m :: ms') = countNE ms' := by
              simp [countNE, hme]
            rw [h1, h2, List.length_cons,
              show s.count + (ms'.length + 1) = (s.count + 1) + ms'.length from by
                omega]
    | false =>
      have hany : s.store.any
          (fun r => r.id == (toSaved platform guildId m).id) = false := by
        rw [List.any_eq_false]
        intro r hr
        simpa [toSaved] using hfr m (List.mem_cons_self m ms') r hr
      have hup : upsertMessage s.store (toSaved platform guildId m) =
          (s.store ++ [toSaved platform guildId m], true) := by
        simp [upsertMessage, hany]
      have hstart : tsLtStart m.timestamp p.start = false :=
        hts m (List.mem_cons_self m ms')
      have hstep : stepMsg p platform guildId s m =
          .next ⟨s.store ++ [toSaved platform guildId m], s.count + 1,
            s.inserted + 1⟩ := by
        simp [stepMsg, hcne, hme, hup, hstart]
      have hmid : m.id ∉ ms'.map RawMessage.id := by
        simpa using hnd.not_mem
      have hrec := ih
        ⟨s.store ++ [toSaved platform guildId m], s.count + 1, s.inserted + 1⟩
        (fun x hx => hts x (List.mem_cons_of_mem m hx))
        (by
          intro x hx r hr
          rcases List.mem_append.mp hr with hr | hr
          · exact hfr x (List.mem_cons_of_mem m hx) r hr
          · have hrm : r = toSaved platform guildId m := by simpa using hr
            subst hrm
            show (toSaved platform guildId m).id ≠ x.id
            have : m.id ≠ x.id := fun hcon =>
              hmid (hcon ▸ List.mem_map_of_mem RawMessage.id hx)
            simpa [toSaved] using this)
        (by simpa using hnd.of_cons)
        (show s.count + 1 ≤ p.maxCount by omega)
        (show ms'.length ≤ p.maxCount - (s.count + 1) by
          simp only [List.length_cons] at hlen; omega)
      calc runMsgs p platform guildId (m :: ms') s
          = runMsgs p platform guildId ms'
              ⟨s.store ++ [toSaved platform guildId m], s.count + 1,
                s.inserted + 1⟩ := by
            simp only [runMsgs, hstep]
        _ = .inl ⟨(s.store ++ [toSaved platform guildId m]) ++
                insertedOf platform guildId ms',
              (s.count + 1) + ms'.length, (s.inserted + 1) + countNE ms'⟩ := hrec
        _ = .inl ⟨s.store ++ insertedOf platform guildId (m :: ms'),
              s.count + (m :: ms').length, s.inserted + countNE (m :: ms')⟩ := by
            have h1 : insertedOf platform guildId (m :: ms') =
                toSaved platform guildId m :: insertedOf platform guildId ms' := by
              simp [insertedOf, hme]
            have h2 : countNE (m :: ms') = countNE ms' + 1 := by
              simp [countNE, hme]
            rw [h1, h2, List.length_cons, List.append_assoc,
              List.singleton_append,
              show s.count + (ms'.length + 1) = (s.count + 1) + ms'.length from by
                omega,
              show s.inserted + (countNE ms' + 1) = (s.inserted + 1) + countNE ms'
                from by omega]

/-- Processing a run of fresh messages longer than the remaining `maxCount`
budget: the loop processes exactly the budgeted number of messages, then the
next message trips the `count ++ === maxCount` guard and the fetch stops with
`reached-max`, without that boundary message being processed. -/
theorem runMsgs_over (p : FetchParams) (platform guildId : String) :
    ∀ (ms : List RawMessage) (s : LoopState),
      (∀ m ∈ ms, tsLtStart m.timestamp p.start = false) →
      (∀ m ∈ ms, ∀ r ∈ s.store, r.id ≠ m.id) →
      (ms.map RawMessage.id).Nodup →
      s.count ≤ p.maxCount →
      p.maxCount - s.count < ms.length →
      runMsgs p platform guildId ms s =
        .inr (s.store ++
            insertedOf platform guildId (ms.take (p.maxCount - s.count)),
          s.inserted + countNE (ms.take (p.maxCount - s.count)),
          .reachedMax) := by
  intro ms
  induction ms with
  | nil =>
    intro s _ _ _ _ hlen
    simp at hlen
  | cons m ms' ih =>
    intro s hts hfr hnd hcnt hlen
    by_cases hceq : s.count = p.maxCount
    · have hb : p.maxCount - s.count = 0 := by omega
      have hstep : stepMsg p platform guildId s m =
          .stop s.store s.inserted .reachedMax := by
        simp [stepMsg, hceq]
      simp only [runMsgs, hstep, hb, List.take_zero]
      simp [insertedOf, countNE]
    · have hclt : s.count < p.maxCount := by omega
      have hb : p.maxCount - s.count = (p.maxCount - (s.count + 1)) + 1 := by
        omega
      cases hme : m.content == "" with
      | true =>
        have hstep : stepMsg p platform guildId s m =
            .next ⟨s.store, s.count + 1, s.inserted⟩ := by
          simp [stepMsg, hceq, hme]
        have hrec := ih ⟨s.store, s.count + 1, s.inserted⟩
          (fun x hx => hts x (List.mem_cons_of_mem m hx))
          (fun x hx r hr => hfr x (List.mem_cons_of_mem m hx) r hr)
          (by simpa using hnd.of_cons)
          (show s.count + 1 ≤ p.maxCount by omega)
          (show p.maxCount - (s.count + 1) < ms'.length by
            simp only [List.length_cons] at hlen; omega)
        calc runMsgs p platform guildId (m :: ms') s
            = runMsgs p platform guildId ms' ⟨s.store, s.count + 1, s.inserted⟩ := by
              simp only [runMsgs, hstep]
          _ = .inr (s.store ++ insertedOf platform guildId
                  (ms'.take (p.maxCount - (s.count + 1))),
                s.inserted + countNE (ms'.take (p.maxCount - (s.count + 1))),
                .reachedMax) := hrec
          _ = .inr (s.store ++ insertedOf platform guildId
                  ((m :: ms').take (p.maxCount - s.count)),
                s.inserted + countNE ((m :: ms').take (p.maxCount - s.count)),
                .reachedMax) := by
              rw [hb, List.take_succ_cons,
                show insertedOf platform guildId
                    (m :: ms'.take (p.maxCount - (s.count + 1))) =
                  insertedOf platform guildId
                    (ms'.take (p.maxCount - (s.count + 1))) from by
                  simp [insertedOf, hme],
                show countNE (m :: ms'.take (p.maxCount - (s.count + 1))) =
                  countNE (ms'.take (p.maxCount - (s.count + 1))) from by
                  simp [countNE, hme]]
      | false =>
        have hany : s.store.any
            (fun r => r.id == (toSaved platform guildId m).id) = false := by
          rw [List.any_eq_false]
          intro r hr
          simpa [toSaved] using hfr m (List.mem_cons_self m ms') r hr
        have hup : upsertMessage s.store (toSaved platform guildId m) =
            (s.store ++ [toSaved platform guildId m], true) := by
          simp [upsertMessage, hany]
        have hstart : tsLtStart m.timestamp p.start = false :=
          hts m (List.mem_cons_self m ms')
        have hstep : stepMsg p platform guildId s m =
            .next ⟨s.store ++ [toSaved platform guildId m], s.count + 1,
              s.inserted + 1⟩ := by
          simp [stepMsg, hceq, hme, hup, hstart]
        have hmid : m.id ∉ ms'.map RawMessage.id := by
          simpa using hnd.not_mem
        have hrec := ih
          ⟨s.store ++ [toSaved platform guildId m], s.count + 1, s.inserted + 1⟩
          (fun x hx => hts x (List.mem_cons_of_mem m hx))
          (by
            intro x hx r hr
            rcases List.mem_append.mp hr with hr | hr
            · exact hfr x (List.mem_cons_of_mem m hx) r hr
            · have hrm : r = toSaved platform guildId m := by simpa using hr
              subst hrm
              show (toSaved platform guildId m).id ≠ x.id
              have : m.id ≠ x.id := fun hcon =>
                hmid (hcon ▸ List.mem_map_of_mem RawMessage.id hx)
              simpa [toSaved] using this)
          (by simpa using hnd.of_cons)
          (show s.count + 1 ≤ p.maxCount by omega)
          (show p.maxCount - (s.count + 1) < ms'.length by
            simp only [List.length_cons] at hlen; omega)
        calc runMsgs p platform guildId (m :: ms') s
            = runMsgs p platform guildId ms'
                ⟨s.store ++ [toSaved platform guildId m], s.count + 1,
                  s.inserted + 1⟩ := by
              simp only [runMsgs, hstep]
          _ = .inr ((s.store ++ [toSaved platform guildId m]) ++
                  insertedOf platform guildId
                    (ms'.take (p.maxCount - (s.count + 1))),
                (s.inserted + 1) +
                  countNE (ms'.take (p.maxCount - (s.count + 1))),
                .reachedMax) := hrec
          _ = .inr (s.store ++ insertedOf platform guildId
                  ((m :: ms').take (p.maxCount - s.count)),
                s.inserted + countNE ((m :: ms').take (p.maxCount - s.count)),
                .reachedMax) := by
              rw [hb, List.take_succ_cons,
                show insertedOf platform guildId
                    (m :: ms'.take (p.maxCount - (s.count + 1))) =
                  toSaved platform guildId m ::
                    insertedOf platform guildId
                      (ms'.take (p.maxCount - (s.count + 1))) from by
                  simp [insertedOf, hme],
                show countNE (m :: ms'.take (p.maxCount - (s.count + 1))) =
                  countNE (ms'.take (p.maxCount - (s.count + 1))) + 1 from by
                  simp [countNE, hme],
                List.append_assoc, List.singleton_append,
                show s.inserted +
                    (countNE (ms'.take (p.maxCount - (s.count + 1))) + 1) =
                  (s.inserted + 1) +
                    countNE (ms'.take (p.maxCount - (s.count + 1))) from by
                  omega]

/-- Paging over a source of fresh messages holding more than the remaining
`maxCount` budget: the loop stops with `reached-max` after inserting the
non-empty messages of the budgeted prefix, and requests exactly the pages
up to and including the one holding the boundary message. -/
theorem runPages_over (p : FetchParams) (platform guildId : String) :
    ∀ (pgs : List Page) (s : LoopState),
      (∀ m ∈ flattenPages pgs, tsLtStart m.timestamp p.start = false) →
      (∀ m ∈ flattenPages pgs, ∀ r ∈ s.store, r.id ≠ m.id) →
      ((flattenPages pgs).map RawMessage.id).Nodup →
      s.count ≤ p.maxCount →
      p.maxCount - s.count < (flattenPages pgs).length →
      runPages p platform guildId pgs s =
        (s.store ++ insertedOf platform guildId
            ((flattenPages pgs).take (p.maxCount - s.count)),
         .ok (s.inserted +
            countNE ((flattenPages pgs).take (p.maxCount - s.count)))
           .reachedMax,
         pagesToReach pgs (p.maxCount - s.count + 1)) := by
  intro pgs
  induction pgs with
  | nil =>
    intro s _ _ _ _ hlen
    simp [flattenPages] at hlen
  | cons pg rest ih =>
    intro s hts hfr hnd hcnt hlen
    cases pg with
    | fail =>
      simp [flattenPages] at hlen
    | page data hasNext =>
      cases data with
      | none =>
        simp [flattenPages] at hlen
      | some d =>
        simp only [flattenPages] at hts hfr hnd hlen ⊢
        by_cases hd : p.maxCount - s.count < d.reverse.length
        · have hm := runMsgs_over p platform guildId d.reverse s
            (fun x hx => hts x (List.mem_append_left _ hx))
            (fun x hx r hr => hfr x (List.mem_append_left _ hx) r hr)
            (by
              rw [List.map_append] at hnd
              exact hnd.of_append_left)
            hcnt hd
          have htake : (d.reverse ++
              (if hasNext = true then flattenPages rest else [])).take
                (p.maxCount - s.count) =
              d.reverse.take (p.maxCount - s.count) := by
            rw [List.take_append_eq_append_take,
              Nat.sub_eq_zero_of_le (Nat.le_of_lt hd), List.take_zero,
              List.append_nil]
          have hpg : pagesToReach (.page (some d) hasNext :: rest)
              (p.maxCount - s.count + 1) = 1 := by
            have hle : p.maxCount - s.count + 1 ≤ d.length := by
              rw [List.length_reverse] at hd
              omega
            simp [pagesToReach, hle]
          rw [htake, hpg]
          simp only [runPages, hm]
        · have hlenle : d.reverse.length ≤ p.maxCount - s.count :=
            Nat.le_of_not_lt hd
          have hm := runMsgs_all p platform guildId d.reverse s
            (fun x hx => hts x (List.mem_append_left _ hx))
            (fun x hx r hr => hfr x (List.mem_append_left _ hx) r hr)
            (by
              rw [List.map_append] at hnd
              exact hnd.of_append_left)
            hcnt hlenle
          cases hasNext with
          | false =>
            exfalso
            rw [if_neg Bool.false_ne_true, List.append_nil] at hlen
            omega
          | true =>
            have hifl : (if true = true then flattenPages rest else []) =
                flattenPages rest := if_pos rfl
            rw [hifl] at hts hfr hnd hlen ⊢
            have hndApp : (d.reverse.map RawMessage.id ++
                (flattenPages rest).map RawMessage.id).Nodup := by
              rw [← List.map_append]
              exact hnd
            have hdisj : (d.reverse.map RawMessage.id).Disjoint
                ((flattenPages rest).map RawMessage.id) :=
              List.disjoint_of_nodup_append hndApp
            have hrec := ih
              ⟨s.store ++ insertedOf platform guildId d.reverse,
                s.count + d.reverse.length,
                s.inserted + countNE d.reverse⟩
              (fun x hx => hts x (List.mem_append_right _ hx))
              (by
                intro x hx r hr
                rcases List.mem_append.mp hr with hr | hr
                · exact hfr x (List.mem_append_right _ hx) r hr
                · obtain ⟨m', hm', hid⟩ :=
                    mem_insertedOf_id platform guildId d.reverse r hr
                  rw [hid]
                  intro hcon
                  exact hdisj (List.mem_map_of_mem RawMessage.id hm')
                    (hcon ▸ List.mem_map_of_mem RawMessage.id hx)
                )
              (by
                exact hndApp.of_append_right)
              (show s.count + d.reverse.length ≤ p.maxCount by omega)
              (show p.maxCount - (s.count + d.reverse.length) <
                  (flattenPages rest).length by
                rw [List.length_append] at hlen
                omega)
            have hbeq : p.maxCount - (s.count + d.reverse.length) =
                p.maxCount - s.count - d.reverse.length := by omega
            have htake : (d.reverse ++ flattenPages rest).take
                (p.maxCount - s.count) =
                d.reverse ++ (flattenPages rest).take
                  (p.maxCount - s.count - d.reverse.length) := by
              rw [List.take_append_eq_append_take,
                List.take_of_length_le hlenle]
            have hpg : pagesToReach (.page (some d) true :: rest)
                (p.maxCount - s.count + 1) =
                1 + pagesToReach rest
                  (p.maxCount - s.count - d.reverse.length + 1) := by
              have hgt : ¬ (p.maxCount - s.count + 1 ≤ d.length) := by
                rw [List.length_reverse] at hlenle
                omega
              have harg : p.maxCount - s.count + 1 - d.length =
                  p.maxCount - s.count - d.reverse.length + 1 := by
                rw [List.length_reverse]
                rw [List.length_reverse] at hlenle
                omega
              simp [pagesToReach, hgt, harg]
            rw [htake, hpg]
            simp only [runPages, hm, if_pos rfl, hrec, hbeq, if_true,
              Prod.mk.injEq, GuildOutcome.ok.injEq, and_true]
            refine ⟨?_, ?_, ?_⟩
            · rw [insertedOf_append, List.append_assoc]
            · rw [countNE_append]
              omega
            · omega

/-- Claim C3: a guild whose source yields more than `maxCount` fetchable
messages, none already stored, processed with `stopOnOld = false` and no
`duration.start` bound, exits with ok/`reached-max`; `inserted` is
`maxCount` minus the number of empty-content skips among the processed
prefix, exactly the pages up to the one containing the boundary message
are requested, and neither the boundary message nor anything after it is
upserted. -/
theorem claim_C3_reached_max :
    ∀ (bots : List Bot) (bot : Bot) (p : FetchParams)
      (store : List SavedMessage) (guild : SavedGuild),
      findBot bots guild.platform guild.managerBotId = some bot →
      bot.isActive = true →
      p.stopOnOld = false →
      p.start = none →
      (∀ m ∈ flattenPages (bot.pages guild.guildId none),
        ∀ r ∈ store, r.id ≠ m.id) →
      ((flattenPages (bot.pages guild.guildId none)).map RawMessage.id).Nodup →
      p.maxCount < (flattenPages (bot.pages guild.guildId none)).length →
      (fetchGuild bots p none store guild =
        (.ok guild
            (p.maxCount - countEmpty
              ((flattenPages (bot.pages guild.guildId none)).take p.maxCount))
            .reachedMax,
         store ++ insertedOf guild.platform guild.guildId
            ((flattenPages (bot.pages guild.guildId none)).take p.maxCount),
         pagesToReach (bot.pages guild.guildId none) (p.maxCount + 1))) ∧
      (∀ m' ∈ (flattenPages (bot.pages guild.guildId none)).drop p.maxCount,
        ∀ r ∈ store ++ insertedOf guild.platform guild.guildId
            ((flattenPages (bot.pages guild.guildId none)).take p.maxCount),
          r.id ≠ m'.id) := by
  intro bots bot p store guild hfind hact hso hstart hfr hnd hlen
  have hts : ∀ m ∈ flattenPages (bot.pages guild.guildId none),
      tsLtStart m.timestamp p.start = false := by
    intro m _
    rw [hstart]
    rfl
  have hrp := runPages_over p guild.platform guild.guildId
    (bot.pages guild.guildId none) ⟨store, 0, 0⟩ hts hfr hnd
    (Nat.zero_le _) (show p.maxCount - 0 <
      (flattenPages (bot.pages guild.guildId none)).length by omega)
  simp only [Nat.sub_zero, Nat.zero_add] at hrp
  have hcne : countNE
      ((flattenPages (bot.pages guild.guildId none)).take p.maxCount) =
      p.maxCount - countEmpty
        ((flattenPages (bot.pages guild.guildId none)).take p.maxCount) := by
    have h1 := countNE_add_countEmpty
      ((flattenPages (bot.pages guild.guildId none)).take p.maxCount)
    have h2 : ((flattenPages (bot.pages guild.guildId none)).take
        p.maxCount).length = p.maxCount := by
      rw [List.length_take]
      omega
    omega
  constructor
  · simp only [fetchGuild, hfind, hact, durEnd, Bool.not_true,
      Bool.false_eq_true, if_false, hrp, hcne]
  · intro m' hm' r hr
    have hsplit : flattenPages (bot.pages guild.guildId none) =
        (flattenPages (bot.pages guild.guildId none)).take p.maxCount ++
          (flattenPages (bot.pages guild.guildId none)).drop p.maxCount :=
      (List.take_append_drop _ _).symm
    rcases List.mem_append.mp hr with hr | hr
    · exact hfr m' (List.mem_of_mem_drop hm') r hr
    · obtain ⟨m'', hm'', hid⟩ := mem_insertedOf_id _ _ _ r hr
      rw [hid]
      intro hcon
      have hnd2 : (((flattenPages (bot.pages guild.guildId none)).take
            p.maxCount).map RawMessage.id ++
          ((flattenPages (bot.pages guild.guildId none)).drop
            p.maxCount).map RawMessage.id).Nodup := by
        rw [← List.map_append, ← hsplit]
        exact hnd
      exact List.disjoint_of_nodup_append hnd2
        (List.mem_map_of_mem RawMessage.id hm'')
        (hcon ▸ List.mem_map_of_mem RawMessage.id hm')

/-- Witness for claim C3: `maxCount = 4` over a 3-page source of six
messages (one empty): `reached-max` with 3 insertions, two pages
requested, the third page never fetched. -/
theorem claim_C3_witness :
    fetchGuild [fix3Bot] ⟨none, false, 4⟩ none [] fixGuild =
      (.ok fixGuild
          (4 - countEmpty
            ((flattenPages (fix3Bot.pages fixGuild.guildId none)).take 4))
          .reachedMax,
       [] ++ insertedOf fixGuild.platform fixGuild.guildId
          ((flattenPages (fix3Bot.pages fixGuild.guildId none)).take 4),
       pagesToReach (fix3Bot.pages fixGuild.guildId none) 5) :=
  (claim_C3_reached_max [fix3Bot] fix3Bot ⟨none, false, 4⟩ [] fixGuild
    rfl rfl rfl rfl (by decide) (by decide) (by decide)).1

end MessageDb
